import Mathlib

/-!
Shallow embedding of the paper-trading execution engine of
`src/execution/sim.py` (class `SimBroker`) together with the enums of
`src/execution/types.py`.

Modelling conventions:
* Python floats (prices, costs, equity, PnL) are modelled as `Rat`; share
  quantities are `Int` as in the SQLite schema (`qty INTEGER`).
* Generated `uuid4` identifiers are modelled by a fresh-counter `next_id`
  in the broker state; the only property the code relies on is uniqueness.
* The SQLite tables `orders`, `fills`, `positions` are modelled as a list
  of orders (insertion order), a list of fills (most recent first, standing
  in for `ORDER BY ts DESC`), and a total function from symbol to position
  row (a missing row reads as qty 0 / avg_cost 0 / realized 0, exactly how
  `_load_pos`/`_save_pos` treat an absent row).
* Wall-clock timestamp columns (`created_at`, `updated_at`, `ts`) and the
  `account_id` column are omitted: no claim below depends on them, and the
  fill-recency order is carried by the fills list itself.
-/

namespace Sim

/-- `OrderSide` of `src/execution/types.py` lines 6-10. -/
inductive OrderSide where
  | buy
  | sell
  | sell_short
  | buy_to_cover
  deriving DecidableEq, Repr

/-- `OrderType` of `src/execution/types.py`. -/
inductive OrderType where
  | market
  | limit
  deriving DecidableEq, Repr

/-- `TimeInForce` of `src/execution/types.py`. -/
inductive TimeInForce where
  | day
  | gtc
  deriving DecidableEq, Repr

/-- `OrderStatus` of `src/execution/types.py` lines 23-29. -/
inductive OrderStatus where
  | pending
  | «open»
  | filled
  | partially_filled
  | canceled
  | rejected
  deriving DecidableEq, Repr

/-- A row of the `positions` table (`symbol` is the key, held outside). -/
structure Position where
  qty : Int
  avg_cost : Rat
  realized_today : Rat
  deriving DecidableEq, Repr

/-- `SimBroker._realize` (sim.py lines 167-176): realized PnL for the
portion of a fill that closes existing exposure.  The side is compared
against the exact enum values `sell` and `buy`. -/
def realize (side : OrderSide) (qty : Int) (price : Rat) (cur_qty : Int)
    (avg_cost : Rat) : Rat :=
  if side = OrderSide.sell ∧ 0 < cur_qty then
    (price - avg_cost) * ((min qty cur_qty : Int) : Rat)
  else if side = OrderSide.buy ∧ cur_qty < 0 then
    (avg_cost - price) * ((min qty (-cur_qty) : Int) : Rat)
  else
    0

/-- `SimBroker._update_position_on_fill` (sim.py lines 178-210) fused with
`_save_pos` (lines 151-165): the new position row for the fill's symbol.
Any side other than `buy` takes the `else:  # sell` branch of the source. -/
def update_position_on_fill (pos : Position) (side : OrderSide) (qty : Int)
    (price : Rat) : Position :=
  let cur_qty := pos.qty
  let avg_cost := pos.avg_cost
  let realized_add := realize side qty price cur_qty avg_cost
  if side = OrderSide.buy then
    if 0 ≤ cur_qty then
      { qty := cur_qty + qty
        avg_cost := ((cur_qty : Rat) * avg_cost + (qty : Rat) * price) /
          ((max 1 (cur_qty + qty) : Int) : Rat)
        realized_today := pos.realized_today + realized_add }
    else
      let new_qty := cur_qty + qty
      { qty := new_qty
        avg_cost := if new_qty < 0 then avg_cost else if new_qty = 0 then 0 else price
        realized_today := pos.realized_today + realized_add }
  else
    if cur_qty ≤ 0 then
      { qty := cur_qty - qty
        avg_cost := ((|cur_qty| : Int) * avg_cost + (qty : Rat) * price) /
          ((max 1 |cur_qty - qty| : Int) : Rat)
        realized_today := pos.realized_today + realized_add }
    else
      let new_qty := cur_qty - qty
      { qty := new_qty
        avg_cost := if 0 < new_qty then avg_cost else if new_qty = 0 then 0 else price
        realized_today := pos.realized_today + realized_add }

/-- A row of the `orders` table (columns of `_insert_order`, sim.py lines
64-91; timestamps and `account_id` omitted, see the module comment). -/
structure Order where
  order_id : Nat
  status : OrderStatus
  symbol : String
  side : OrderSide
  order_type : OrderType
  limit_price : Option Rat
  tif : TimeInForce
  requested_qty : Int
  filled_qty : Int
  avg_fill_price : Option Rat
  decision_id : Option Int
  reject_reason : Option String
  deriving DecidableEq, Repr

/-- A row of the `fills` table (`_insert_fill`, sim.py lines 93-98). -/
structure Fill where
  fill_id : Nat
  order_id : Nat
  symbol : String
  qty : Int
  price : Rat
  deriving DecidableEq, Repr

/-- `OrderSpec` of `src/execution/types.py` lines 32-40. -/
structure OrderSpec where
  symbol : String
  side : OrderSide
  order_type : OrderType
  limit_price : Option Rat
  size_type : String
  size_value : Rat
  tif : TimeInForce
  decision_id : Option Int

/-- `ExecutionContext` of `src/execution/base.py` lines 7-12 (the unused
`simulate` flag is dropped). -/
structure ExecutionContext where
  account_id : String
  last_prices : String → Option Rat
  equity : Rat

/-- The persisted order/fill/position store of one `SimBroker`, plus the
fresh-id counter standing in for `uuid4`. `fills` is ordered most recent
first; `orders` in insertion order. -/
structure BrokerState where
  orders : List Order
  fills : List Fill
  positions : String → Position
  next_id : Nat

/-- `DEFAULT_MARKET_SYNTH_PRICE` (sim.py line 24). -/
def DEFAULT_MARKET_SYNTH_PRICE : Rat := 100

/-- `SimBroker._recent_last` (sim.py lines 142-145): price of the most
recent fill for the symbol, if any. -/
def recent_last (fills : List Fill) (symbol : String) : Option Rat :=
  (fills.find? fun f => f.symbol == symbol).map Fill.price

/-- The effective-price resolution shared by `_maybe_fill_now` (sim.py lines
216-218) and `_compute_qty` (lines 124-129): the supplied price when it is
present and positive, else the most recent fill price. -/
def resolve_lp (fills : List Fill) (symbol : String) (last_price : Option Rat) :
    Option Rat :=
  match last_price with
  | none => recent_last fills symbol
  | some lp => if lp ≤ 0 then recent_last fills symbol else some lp

/-- `SimBroker._compute_qty` (sim.py lines 118-138).  Python `int()`
truncates toward zero; `//` is floor division. -/
def compute_qty (fills : List Fill) (spec : OrderSpec) (ctx : ExecutionContext) :
    Int :=
  if spec.size_type = "shares" then
    max 0 (if 0 ≤ spec.size_value then ⌊spec.size_value⌋ else ⌈spec.size_value⌉)
  else
    match resolve_lp fills spec.symbol (ctx.last_prices spec.symbol) with
    | none => 0
    | some last =>
      if last ≤ 0 then 0
      else if spec.size_type = "notional" then
        max 0 ⌊spec.size_value / last⌋
      else if spec.size_type = "risk_bps" then
        max 0 ⌊(ctx.equity * (spec.size_value / 10000)) / last⌋
      else 0

/-- The `UPDATE orders SET status = filled, ...` statement of
`_maybe_fill_now` (sim.py lines 253-256). -/
def set_filled (orders : List Order) (oid : Nat) (qty : Int) (price : Rat) :
    List Order :=
  orders.map fun r =>
    if r.order_id = oid then
      { r with status := OrderStatus.filled, filled_qty := qty,
               avg_fill_price := some price }
    else r

/-- The fill row built in `_maybe_fill_now` (sim.py lines 248-252). -/
def mk_fill (s : BrokerState) (o : Order) (qty : Int) (price : Rat) : Fill :=
  { fill_id := s.next_id, order_id := o.order_id, symbol := o.symbol,
    qty := qty, price := price }

/-- Store state after the first committed transaction of the fill path:
`_insert_fill` commits at sim.py line 98; the order row and the position
row are still untouched. -/
def commit_fill_insert (s : BrokerState) (o : Order) (qty : Int) (price : Rat) :
    BrokerState :=
  { s with fills := mk_fill s o qty price :: s.fills, next_id := s.next_id + 1 }

/-- Store state after the second committed transaction: the order-status
`UPDATE` commits at sim.py line 257. -/
def commit_order_update (s : BrokerState) (o : Order) (qty : Int) (price : Rat) :
    BrokerState :=
  { s with orders := set_filled s.orders o.order_id qty price }

/-- Store state after the third committed transaction: `_save_pos` commits
at sim.py line 165 inside `_update_position_on_fill`. -/
def commit_position_update (s : BrokerState) (o : Order) (qty : Int)
    (price : Rat) : BrokerState :=
  { s with positions := fun sym =>
      if sym = o.symbol then
        update_position_on_fill (s.positions o.symbol) o.side qty price
      else s.positions sym }

/-- The sequence of store states committed (and hence observable) one after
another by the fill path of `_maybe_fill_now` (sim.py lines 248-259): fill
insert, then order update, then position update — three separate SQLite
transactions, each ended by its own `conn.commit()`. -/
def fill_commit_trace (s : BrokerState) (o : Order) (qty : Int) (price : Rat) :
    List BrokerState :=
  let s1 := commit_fill_insert s o qty price
  let s2 := commit_order_update s1 o qty price
  let s3 := commit_position_update s2 o qty price
  [s1, s2, s3]

/-- The complete fill path of `_maybe_fill_now` (sim.py lines 248-262):
the final store state and the returned `FillRecord`. -/
def apply_fill (s : BrokerState) (o : Order) (qty : Int) (price : Rat) :
    BrokerState × Fill :=
  (commit_position_update (commit_order_update (commit_fill_insert s o qty price)
      o qty price) o qty price,
   mk_fill s o qty price)

/-- The decision half of `SimBroker._maybe_fill_now` (sim.py lines
214-246): `some (qty, price)` when the order fills now at `price` for
`qty` shares, `none` when one of the early `return None` paths is taken.
It reads the store only through `resolve_lp` on the fills table.  Note the
buy crossing branch is taken for side `buy` or `buy_to_cover` (line 235),
every other side takes the sell branch. -/
def fill_decision (fills : List Fill) (o : Order) (last_price : Option Rat) :
    Option (Int × Rat) :=
  let lp0 := resolve_lp fills o.symbol last_price
  match o.order_type with
  | OrderType.market =>
    let price := match lp0 with
      | none => DEFAULT_MARKET_SYNTH_PRICE
      | some v => if v ≤ 0 then DEFAULT_MARKET_SYNTH_PRICE else v
    some (o.requested_qty, price)
  | OrderType.limit =>
    match lp0 with
    | none => none
    | some lp =>
      if lp ≤ 0 then none
      else
        match o.limit_price with
        | none => none
        | some limit_px =>
          if o.side = OrderSide.buy ∨ o.side = OrderSide.buy_to_cover then
            if lp ≤ limit_px then some (o.requested_qty, min limit_px lp)
            else none
          else
            if limit_px ≤ lp then some (o.requested_qty, max limit_px lp)
            else none

/-- `SimBroker._maybe_fill_now` (sim.py lines 214-262): the decision part
(lines 214-246, `fill_decision`) followed, on a fill, by the fill path
(lines 248-262, `apply_fill`).  `none` in the second component means no
fill and an untouched store. -/
def maybe_fill_now (s : BrokerState) (o : Order) (last_price : Option Rat) :
    BrokerState × Option Fill :=
  match fill_decision s.fills o last_price with
  | none => (s, none)
  | some qp =>
    let r := apply_fill s o qp.1 qp.2
    (r.1, some r.2)

/-- `SimBroker.place_order` (sim.py lines 266-308). -/
def place_order (s : BrokerState) (spec : OrderSpec) (ctx : ExecutionContext) :
    BrokerState × Order :=
  let last := ctx.last_prices spec.symbol
  let requested_qty := compute_qty s.fills spec ctx
  let oid := s.next_id
  let base : Order :=
    { order_id := oid, status := OrderStatus.pending, symbol := spec.symbol,
      side := spec.side, order_type := spec.order_type,
      limit_price := spec.limit_price, tif := spec.tif,
      requested_qty := requested_qty, filled_qty := 0, avg_fill_price := none,
      decision_id := spec.decision_id, reject_reason := none }
  if requested_qty < 1 then
    let row := { base with status := OrderStatus.rejected,
                           reject_reason := some "sizing_zero_qty" }
    ({ s with orders := s.orders ++ [row], next_id := s.next_id + 1 }, row)
  else
    let row := { base with status :=
      if spec.order_type = OrderType.limit then OrderStatus.«open»
      else OrderStatus.pending }
    let s1 : BrokerState :=
      { s with orders := s.orders ++ [row], next_id := s.next_id + 1 }
    let res := maybe_fill_now s1 row last
    let s3 := if res.2.isNone then
        { res.1 with orders := res.1.orders.map fun r =>
            if r.order_id = oid then { r with status := OrderStatus.«open» }
            else r }
      else res.1
    (s3, (s3.orders.find? fun r => r.order_id == oid).getD row)

/-- `SimBroker.cancel_order` (sim.py lines 310-323). -/
def cancel_order (s : BrokerState) (oid : Nat) : BrokerState × Bool :=
  match s.orders.find? fun r => r.order_id == oid with
  | none => (s, false)
  | some r =>
    if r.status = OrderStatus.filled ∨ r.status = OrderStatus.canceled ∨
        r.status = OrderStatus.rejected then
      (s, false)
    else
      ({ s with orders := s.orders.map fun o =>
          if o.order_id = oid then { o with status := OrderStatus.canceled }
          else o },
       true)

/-- The working set of `try_fill_resting` (the `SELECT` of sim.py lines
326-329): open or pending limit orders. -/
def resting_candidates (orders : List Order) : List Order :=
  orders.filter fun o =>
    (o.status = OrderStatus.«open» ∨ o.status = OrderStatus.pending) ∧
      o.order_type = OrderType.limit

/-- `SimBroker.try_fill_resting` (sim.py lines 325-333): snapshot the
open/pending limit orders, then attempt each against the supplied price
map, threading the store. -/
def try_fill_resting (s : BrokerState) (prices : String → Option Rat) :
    BrokerState :=
  (resting_candidates s.orders).foldl
    (fun st r => (maybe_fill_now st r (prices r.symbol)).1) s

/-- Well-formedness of a broker state: every stored order id was generated
below the fresh counter, and ids are pairwise distinct (uuid4 uniqueness). -/
def WF (s : BrokerState) : Prop :=
  (∀ o ∈ s.orders, o.order_id < s.next_id) ∧
    (s.orders.map Order.order_id).Nodup

/-- The effective price a market order fills at (sim.py lines 216-226):
the resolved price when positive, else the synthetic fallback. -/
def market_effective_price (fills : List Fill) (symbol : String)
    (last_price : Option Rat) : Rat :=
  match resolve_lp fills symbol last_price with
  | none => DEFAULT_MARKET_SYNTH_PRICE
  | some v => if v ≤ 0 then DEFAULT_MARKET_SYNTH_PRICE else v

/-- The `WHERE` condition of `try_fill_resting`'s `SELECT` (sim.py lines
326-329), as a proposition on one row. -/
def openish (o : Order) : Prop :=
  (o.status = OrderStatus.«open» ∨ o.status = OrderStatus.pending) ∧
    o.order_type = OrderType.limit

example :
    update_position_on_fill ⟨0, 0, 0⟩ OrderSide.buy 10 50 = ⟨10, 50, 0⟩ := by
  simp [update_position_on_fill, realize]

example :
    update_position_on_fill ⟨10, 50, 0⟩ OrderSide.sell 10 55 = ⟨0, 0, 50⟩ := by
  simp [update_position_on_fill, realize]
  norm_num

example :
    update_position_on_fill ⟨10, 50, 0⟩ OrderSide.buy 10 60 = ⟨20, 55, 0⟩ := by
  simp [update_position_on_fill, realize]
  norm_num

example :
    update_position_on_fill ⟨-10, 50, 0⟩ OrderSide.buy 4 40 = ⟨-6, 50, 40⟩ := by
  simp [update_position_on_fill, realize]
  norm_num

/-- C1: applying a fill with side buy or sell, quantity `qty ≥ 1` and price
`p` to a position with signed quantity `q` and average cost `c` follows the
weighted-average / keep / reset / fresh-basis rules of the spec: a buy with
`q ≥ 0` yields quantity `q+qty` and cost `(q·c+qty·p)/(q+qty)` (0 when
`q+qty = 0`); a buy with `q < 0` keeps `c` while still short, resets to 0 at
flat, and takes `p` on a flip to long; a sell is the mirror. -/
theorem position_update_rule (q : Int) (c r : Rat) (qty : Int) (p : Rat)
    (hqty : 1 ≤ qty) :
    (0 ≤ q →
      (update_position_on_fill ⟨q, c, r⟩ OrderSide.buy qty p).qty = q + qty ∧
      (update_position_on_fill ⟨q, c, r⟩ OrderSide.buy qty p).avg_cost =
        (if q + qty = 0 then 0
         else ((q : Rat) * c + (qty : Rat) * p) / ((q + qty : Int) : Rat))) ∧
    (q < 0 →
      (update_position_on_fill ⟨q, c, r⟩ OrderSide.buy qty p).qty = q + qty ∧
      (update_position_on_fill ⟨q, c, r⟩ OrderSide.buy qty p).avg_cost =
        (if q + qty < 0 then c else if q + qty = 0 then 0 else p)) ∧
    (q ≤ 0 →
      (update_position_on_fill ⟨q, c, r⟩ OrderSide.sell qty p).qty = q - qty ∧
      (update_position_on_fill ⟨q, c, r⟩ OrderSide.sell qty p).avg_cost =
        ((|q| : Int) * c + (qty : Rat) * p) / ((|q - qty| : Int) : Rat)) ∧
    (0 < q →
      (update_position_on_fill ⟨q, c, r⟩ OrderSide.sell qty p).qty = q - qty ∧
      (update_position_on_fill ⟨q, c, r⟩ OrderSide.sell qty p).avg_cost =
        (if 0 < q - qty then c else if q - qty = 0 then 0 else p)) := by
  refine ⟨fun hq => ?_, fun hq => ?_, fun hq => ?_, fun hq => ?_⟩
  · have hmax : max 1 (q + qty) = q + qty := by omega
    simp only [update_position_on_fill, if_true, if_false]
    rw [if_pos hq, if_neg (by omega : ¬ q + qty = 0), hmax]
    exact ⟨rfl, rfl⟩
  · simp only [update_position_on_fill, if_true, if_false]
    rw [if_neg (by omega : ¬ 0 ≤ q)]
    exact ⟨rfl, rfl⟩
  · have hmax : max 1 |q - qty| = |q - qty| := by
      rcases abs_cases (q - qty) with ⟨h1, _⟩ | ⟨h1, _⟩ <;> omega
    simp only [update_position_on_fill, if_true, if_false]
    rw [if_pos hq, hmax]
    exact ⟨rfl, rfl⟩
  · simp only [update_position_on_fill, if_true, if_false]
    rw [if_neg (by omega : ¬ q ≤ 0)]
    exact ⟨rfl, rfl⟩

/-- Witness for C1 at a concrete input: position (5, 10), buy 2 at 16 gives
the weighted average 82/7. -/
theorem position_update_rule_witness :
    (update_position_on_fill ⟨5, 10, 0⟩ OrderSide.buy 2 16).avg_cost = 82 / 7 := by
  have h := ((position_update_rule 5 10 0 2 16 (by norm_num)).1 (by norm_num)).2
  rw [h]
  norm_num

/-- C2: a fill changes the realized-PnL accumulator by
`(p − c)·min(qty, q)` for a sell against a long, by `(c − p)·min(qty, −q)`
for a buy against a short, and not at all in any other case — in particular
the opening portion of a fill contributes nothing. -/
theorem realized_pnl_change (pos : Position) (side : OrderSide) (qty : Int)
    (price : Rat) :
    (update_position_on_fill pos side qty price).realized_today =
      pos.realized_today +
        (if side = OrderSide.sell ∧ 0 < pos.qty then
          (price - pos.avg_cost) * ((min qty pos.qty : Int) : Rat)
        else if side = OrderSide.buy ∧ pos.qty < 0 then
          (pos.avg_cost - price) * ((min qty (-pos.qty) : Int) : Rat)
        else 0) := by
  have : (update_position_on_fill pos side qty price).realized_today =
      pos.realized_today + realize side qty price pos.qty pos.avg_cost := by
    simp only [update_position_on_fill]
    split_ifs <;> rfl
  rw [this, realize]

/-- The fill decision depends on the fills table only through the resolved
effective price. -/
lemma fill_decision_congr (f1 f2 : List Fill) (o : Order) (last_price : Option Rat)
    (h : resolve_lp f1 o.symbol last_price = resolve_lp f2 o.symbol last_price) :
    fill_decision f1 o last_price = fill_decision f2 o last_price := by
  unfold fill_decision
  rw [h]

/-- A limit order that fills does so exactly at the resolved effective
price: the crossing test makes `min`/`max` collapse to the effective price. -/
lemma limit_fill_at_effective (fills : List Fill) (o : Order) (last_price : Option Rat)
    (q : Int) (p : Rat) (htype : o.order_type = OrderType.limit)
    (hd : fill_decision fills o last_price = some (q, p)) :
    resolve_lp fills o.symbol last_price = some p ∧ 0 < p ∧ q = o.requested_qty := by
  unfold fill_decision at hd
  rw [htype] at hd
  rcases hlp : resolve_lp fills o.symbol last_price with _ | lp <;> rw [hlp] at hd <;>
    dsimp only at hd
  · exact absurd hd (by simp)
  · by_cases h1 : lp ≤ 0
    · rw [if_pos h1] at hd
      exact absurd hd (by simp)
    · rw [if_neg h1] at hd
      rcases hL : o.limit_price with _ | limit_px <;> rw [hL] at hd <;> dsimp only at hd
      · exact absurd hd (by simp)
      · by_cases hside : o.side = OrderSide.buy ∨ o.side = OrderSide.buy_to_cover
        · rw [if_pos hside] at hd
          by_cases h2 : lp ≤ limit_px
          · rw [if_pos h2] at hd
            simp only [Option.some.injEq, Prod.mk.injEq] at hd
            refine ⟨?_, ?_, hd.1.symm⟩
            · rw [← hd.2, min_eq_right h2]
            · rw [← hd.2, min_eq_right h2]
              exact lt_of_not_le h1
          · rw [if_neg h2] at hd
            exact absurd hd (by simp)
        · rw [if_neg hside] at hd
          by_cases h2 : limit_px ≤ lp
          · rw [if_pos h2] at hd
            simp only [Option.some.injEq, Prod.mk.injEq] at hd
            refine ⟨?_, ?_, hd.1.symm⟩
            · rw [← hd.2, max_eq_right h2]
            · rw [← hd.2, max_eq_right h2]
              exact lt_of_not_le h1
          · rw [if_neg h2] at hd
            exact absurd hd (by simp)

/-- Every fill price the matcher produces is positive. -/
lemma fill_decision_price_pos (fills : List Fill) (o : Order) (last_price : Option Rat)
    (q : Int) (p : Rat) (hd : fill_decision fills o last_price = some (q, p)) :
    0 < p := by
  rcases htype : o.order_type with _ | _
  · unfold fill_decision at hd
    rw [htype] at hd
    rcases hlp : resolve_lp fills o.symbol last_price with _ | lp <;> rw [hlp] at hd <;>
      simp only [Option.some.injEq, Prod.mk.injEq] at hd
    · rw [← hd.2]
      norm_num [DEFAULT_MARKET_SYNTH_PRICE]
    · rw [← hd.2]
      split_ifs with h
      · norm_num [DEFAULT_MARKET_SYNTH_PRICE]
      · exact lt_of_not_le h
  · exact (limit_fill_at_effective fills o last_price q p htype hd).2.1

lemma apply_fill_fills (s : BrokerState) (o : Order) (q : Int) (p : Rat) :
    ((apply_fill s o q p).1).fills = mk_fill s o q p :: s.fills := rfl

lemma apply_fill_orders (s : BrokerState) (o : Order) (q : Int) (p : Rat) :
    ((apply_fill s o q p).1).orders = set_filled s.orders o.order_id q p := rfl

lemma apply_fill_positions (s : BrokerState) (o : Order) (q : Int) (p : Rat) :
    ((apply_fill s o q p).1).positions = fun sym =>
      if sym = o.symbol then
        update_position_on_fill (s.positions o.symbol) o.side q p
      else s.positions sym := rfl

lemma maybe_fill_now_of_none (s : BrokerState) (o : Order) (last_price : Option Rat)
    (h : fill_decision s.fills o last_price = none) :
    maybe_fill_now s o last_price = (s, none) := by
  unfold maybe_fill_now
  rw [h]

lemma maybe_fill_now_of_some (s : BrokerState) (o : Order) (last_price : Option Rat)
    (q : Int) (p : Rat) (h : fill_decision s.fills o last_price = some (q, p)) :
    maybe_fill_now s o last_price = ((apply_fill s o q p).1, some (mk_fill s o q p)) := by
  unfold maybe_fill_now
  rw [h]
  rfl

lemma maybe_fill_now_cases (s : BrokerState) (o : Order) (last_price : Option Rat) :
    maybe_fill_now s o last_price = (s, none) ∨
      ∃ q p, fill_decision s.fills o last_price = some (q, p) ∧
        maybe_fill_now s o last_price = ((apply_fill s o q p).1, some (mk_fill s o q p)) := by
  rcases h : fill_decision s.fills o last_price with _ | ⟨q, p⟩
  · exact Or.inl (maybe_fill_now_of_none s o last_price h)
  · exact Or.inr ⟨q, p, rfl, maybe_fill_now_of_some s o last_price q p h⟩

/-- The limit branch of the decision, once a positive effective price and a
limit price are in hand, is the pure crossing test of sim.py lines 235-246. -/
lemma fill_decision_limit (fills : List Fill) (o : Order) (last_price : Option Rat)
    (L lp : Rat) (htype : o.order_type = OrderType.limit)
    (hL : o.limit_price = some L)
    (hlp : resolve_lp fills o.symbol last_price = some lp) (hpos : 0 < lp) :
    fill_decision fills o last_price =
      if o.side = OrderSide.buy ∨ o.side = OrderSide.buy_to_cover then
        (if lp ≤ L then some (o.requested_qty, min L lp) else none)
      else
        (if L ≤ lp then some (o.requested_qty, max L lp) else none) := by
  unfold fill_decision
  rw [htype, hlp]
  dsimp only
  rw [if_neg (not_le.mpr hpos), hL]

lemma fill_decision_limit_noprice (fills : List Fill) (o : Order)
    (last_price : Option Rat) (htype : o.order_type = OrderType.limit)
    (h : resolve_lp fills o.symbol last_price = none) :
    fill_decision fills o last_price = none := by
  unfold fill_decision
  rw [htype, h]

lemma fill_decision_limit_nonpos (fills : List Fill) (o : Order)
    (last_price : Option Rat) (lp : Rat) (htype : o.order_type = OrderType.limit)
    (hlp : resolve_lp fills o.symbol last_price = some lp) (h : lp ≤ 0) :
    fill_decision fills o last_price = none := by
  unfold fill_decision
  rw [htype, hlp]
  dsimp only
  rw [if_pos h]

/-- The market branch of the decision always fills the full requested
quantity at the synthetic-fallback effective price (sim.py lines 222-227). -/
lemma fill_decision_market (fills : List Fill) (o : Order) (last_price : Option Rat)
    (htype : o.order_type = OrderType.market) :
    fill_decision fills o last_price =
      some (o.requested_qty,
        match resolve_lp fills o.symbol last_price with
        | none => DEFAULT_MARKET_SYNTH_PRICE
        | some v => if v ≤ 0 then DEFAULT_MARKET_SYNTH_PRICE else v) := by
  unfold fill_decision
  rw [htype]

lemma set_filled_ids (l : List Order) (oid : Nat) (q : Int) (p : Rat) :
    (set_filled l oid q p).map Order.order_id = l.map Order.order_id := by
  unfold set_filled
  rw [List.map_map]
  apply List.map_congr_left
  intro r _
  by_cases h : r.order_id = oid <;> simp [h]

lemma mem_set_filled_of_ne (l : List Order) (oid : Nat) (q : Int) (p : Rat)
    (r : Order) (hr : r ∈ l) (hne : r.order_id ≠ oid) :
    r ∈ set_filled l oid q p := by
  unfold set_filled
  have : (if r.order_id = oid then
      { r with status := OrderStatus.filled, filled_qty := q,
               avg_fill_price := some p } else r) = r := if_neg hne
  rw [← this]
  exact List.mem_map_of_mem _ hr

/-- C3: a limit buy evaluated against a resolved positive effective price
`lp` fills iff `lp` is at or below the limit `L`, at price `min L lp` (so
never above `L`); a limit sell fills iff `lp ≥ L`, at `max L lp` (so never
below `L`); when the crossing test fails, or when no positive price
resolves at all, the store is left untouched. -/
theorem limit_fill_rule (s : BrokerState) (o : Order) (last_price : Option Rat)
    (L lp : Rat) (htype : o.order_type = OrderType.limit)
    (hL : o.limit_price = some L) :
    (resolve_lp s.fills o.symbol last_price = some lp → 0 < lp →
      (o.side = OrderSide.buy →
        (((maybe_fill_now s o last_price).2).isSome ↔ lp ≤ L) ∧
        (∀ f, (maybe_fill_now s o last_price).2 = some f →
          f.price = min L lp ∧ f.price ≤ L) ∧
        (¬ lp ≤ L → maybe_fill_now s o last_price = (s, none))) ∧
      (o.side = OrderSide.sell →
        (((maybe_fill_now s o last_price).2).isSome ↔ L ≤ lp) ∧
        (∀ f, (maybe_fill_now s o last_price).2 = some f →
          f.price = max L lp ∧ L ≤ f.price) ∧
        (¬ L ≤ lp → maybe_fill_now s o last_price = (s, none)))) ∧
    (resolve_lp s.fills o.symbol last_price = none →
      maybe_fill_now s o last_price = (s, none)) ∧
    (resolve_lp s.fills o.symbol last_price = some lp → lp ≤ 0 →
      maybe_fill_now s o last_price = (s, none)) := by
  refine ⟨fun hlp hpos => ⟨fun hside => ?_, fun hside => ?_⟩, fun h => ?_, fun hlp h => ?_⟩
  · have hd := fill_decision_limit s.fills o last_price L lp htype hL hlp hpos
    rw [if_pos (Or.inl hside)] at hd
    by_cases hcross : lp ≤ L
    · rw [if_pos hcross] at hd
      have hm := maybe_fill_now_of_some s o last_price _ _ hd
      rw [hm]
      refine ⟨by simp [hcross], fun f hf => ?_, fun hc => absurd hcross hc⟩
      simp only [Option.some.injEq] at hf
      rw [← hf]
      exact ⟨rfl, min_le_left L lp⟩
    · rw [if_neg hcross] at hd
      have hm := maybe_fill_now_of_none s o last_price hd
      rw [hm]
      exact ⟨by simp [hcross], fun f hf => by simp at hf, fun _ => rfl⟩
  · have hd := fill_decision_limit s.fills o last_price L lp htype hL hlp hpos
    rw [if_neg (by rw [hside]; simp)] at hd
    by_cases hcross : L ≤ lp
    · rw [if_pos hcross] at hd
      have hm := maybe_fill_now_of_some s o last_price _ _ hd
      rw [hm]
      refine ⟨by simp [hcross], fun f hf => ?_, fun hc => absurd hcross hc⟩
      simp only [Option.some.injEq] at hf
      rw [← hf]
      exact ⟨rfl, le_max_left L lp⟩
    · rw [if_neg hcross] at hd
      have hm := maybe_fill_now_of_none s o last_price hd
      rw [hm]
      exact ⟨by simp [hcross], fun f hf => by simp at hf, fun _ => rfl⟩
  · exact maybe_fill_now_of_none s o last_price
      (fill_decision_limit_noprice s.fills o last_price htype h)
  · exact maybe_fill_now_of_none s o last_price
      (fill_decision_limit_nonpos s.fills o last_price lp htype hlp h)

/-- Witness for C3: in a store with no fills, a resting limit buy with
limit 49 against a supplied price 48 fills (48 ≤ 49), at price
min(49, 48) = 48. -/
theorem limit_fill_rule_witness :
    ((maybe_fill_now ⟨[], [], fun _ => ⟨0, 0, 0⟩, 0⟩
        ⟨0, OrderStatus.«open», "XYZ", OrderSide.buy, OrderType.limit, some 49,
          TimeInForce.day, 5, 0, none, none, none⟩ (some 48)).2).isSome ∧
    (∀ f, (maybe_fill_now ⟨[], [], fun _ => ⟨0, 0, 0⟩, 0⟩
        ⟨0, OrderStatus.«open», "XYZ", OrderSide.buy, OrderType.limit, some 49,
          TimeInForce.day, 5, 0, none, none, none⟩ (some 48)).2 = some f →
      f.price ≤ 49) := by
  have h := limit_fill_rule ⟨[], [], fun _ => ⟨0, 0, 0⟩, 0⟩
    ⟨0, OrderStatus.«open», "XYZ", OrderSide.buy, OrderType.limit, some 49,
      TimeInForce.day, 5, 0, none, none, none⟩ (some 48) 49 48 rfl rfl
  have hlp : resolve_lp ([] : List Fill) "XYZ" (some 48) = some 48 := by
    norm_num [resolve_lp]
  have hb := (h.1 hlp (by norm_num)).1 rfl
  exact ⟨hb.1.mpr (by norm_num), fun f hf => (hb.2.1 f hf).2⟩

/-- C10: a limit `buy_to_cover` order crosses like a buy in the matcher
(fills iff effective price ≤ limit price, sim.py line 235), but the
position ledger treats every side other than the exact value `buy` as a
sell (line 185), so the signed quantity DECREASES by the fill quantity;
and `_realize` compares only against the exact values `sell` and `buy`
(lines 170, 173), so realized PnL never changes for this side, even when
the fill closes an existing short. -/
theorem buy_to_cover_anomaly (s : BrokerState) (o : Order) (last_price : Option Rat)
    (L lp : Rat) (pos : Position) (qty : Int) (p : Rat)
    (hside : o.side = OrderSide.buy_to_cover)
    (htype : o.order_type = OrderType.limit)
    (hL : o.limit_price = some L)
    (hlp : resolve_lp s.fills o.symbol last_price = some lp) (hpos : 0 < lp) :
    (((maybe_fill_now s o last_price).2).isSome ↔ lp ≤ L) ∧
    (update_position_on_fill pos OrderSide.buy_to_cover qty p).qty = pos.qty - qty ∧
    (update_position_on_fill pos OrderSide.buy_to_cover qty p).realized_today =
      pos.realized_today := by
  refine ⟨?_, ?_, ?_⟩
  · have hd := fill_decision_limit s.fills o last_price L lp htype hL hlp hpos
    rw [if_pos (Or.inr hside)] at hd
    by_cases hcross : lp ≤ L
    · rw [if_pos hcross] at hd
      rw [maybe_fill_now_of_some s o last_price _ _ hd]
      simp [hcross]
    · rw [if_neg hcross] at hd
      rw [maybe_fill_now_of_none s o last_price hd]
      simp [hcross]
  · simp only [update_position_on_fill]
    split_ifs <;> simp_all
  · simp only [update_position_on_fill, realize]
    split_ifs <;> simp_all

/-- Witness for C10: with a short position of −5 at cost 50, a
`buy_to_cover` fill of 3 at 40 drives the position to −8 and leaves
realized PnL at 0; and a limit `buy_to_cover` at limit 49 against price 48
does fill. -/
theorem buy_to_cover_anomaly_witness :
    ((maybe_fill_now ⟨[], [], fun _ => ⟨0, 0, 0⟩, 0⟩
        ⟨0, OrderStatus.«open», "XYZ", OrderSide.buy_to_cover, OrderType.limit,
          some 49, TimeInForce.day, 5, 0, none, none, none⟩ (some 48)).2).isSome ∧
    (update_position_on_fill ⟨-5, 50, 0⟩ OrderSide.buy_to_cover 3 40).qty = -8 ∧
    (update_position_on_fill ⟨-5, 50, 0⟩ OrderSide.buy_to_cover 3 40).realized_today
      = 0 := by
  have h := buy_to_cover_anomaly ⟨[], [], fun _ => ⟨0, 0, 0⟩, 0⟩
    ⟨0, OrderStatus.«open», "XYZ", OrderSide.buy_to_cover, OrderType.limit,
      some 49, TimeInForce.day, 5, 0, none, none, none⟩ (some 48) 49 48
    ⟨-5, 50, 0⟩ 3 40 rfl rfl rfl (by norm_num [resolve_lp]) (by norm_num)
  refine ⟨h.1.mpr (by norm_num), ?_, h.2.2⟩
  rw [h.2.1]
  norm_num

/-- C8: `cancel_order` returns `false` and leaves the store unchanged when
the id is unknown or the order is terminal (filled / canceled / rejected);
on a pending or open order it flips the status to canceled and returns
`true`; and (given that the engine never produces `partially_filled`) a
`true` return can only come from a pending or open order. -/
theorem cancel_order_rule (s : BrokerState) (oid : Nat)
    (hnp : ∀ o ∈ s.orders, o.status ≠ OrderStatus.partially_filled) :
    (s.orders.find? (fun r => r.order_id == oid) = none →
      cancel_order s oid = (s, false)) ∧
    (∀ r, s.orders.find? (fun r => r.order_id == oid) = some r →
      ((r.status = OrderStatus.filled ∨ r.status = OrderStatus.canceled ∨
          r.status = OrderStatus.rejected) →
        cancel_order s oid = (s, false)) ∧
      ((r.status = OrderStatus.pending ∨ r.status = OrderStatus.«open») →
        (cancel_order s oid).2 = true ∧
        (cancel_order s oid).1.fills = s.fills ∧
        (cancel_order s oid).1.positions = s.positions ∧
        (cancel_order s oid).1.orders = s.orders.map fun o =>
          if o.order_id = oid then { o with status := OrderStatus.canceled }
          else o)) ∧
    ((cancel_order s oid).2 = true →
      ∃ r, s.orders.find? (fun r => r.order_id == oid) = some r ∧
        (r.status = OrderStatus.pending ∨ r.status = OrderStatus.«open»)) := by
  refine ⟨fun h => ?_, fun r hr => ⟨fun hterm => ?_, fun hok => ?_⟩, fun htrue => ?_⟩
  · unfold cancel_order
    rw [h]
  · unfold cancel_order
    rw [hr]
    dsimp only
    rw [if_pos hterm]
  · unfold cancel_order
    rw [hr]
    dsimp only
    rw [if_neg (by rcases hok with h | h <;> rw [h] <;> simp)]
    exact ⟨rfl, rfl, rfl, rfl⟩
  · unfold cancel_order at htrue
    rcases hfind : s.orders.find? (fun r => r.order_id == oid) with _ | r <;>
      rw [hfind] at htrue
    · simp at htrue
    · dsimp only at htrue
      split_ifs at htrue with hterm
      refine ⟨r, hfind, ?_⟩
      have hmem : r ∈ s.orders := List.mem_of_find?_eq_some hfind
      have := hnp r hmem
      cases hst : r.status <;> rw [hst] at hterm this <;> simp_all

/-- Witness for C8: cancelling an already-filled order returns `false` and
does not change the store. -/
theorem cancel_order_rule_witness :
    cancel_order ⟨[⟨7, OrderStatus.filled, "XYZ", OrderSide.buy, OrderType.market,
        none, TimeInForce.day, 10, 10, some 50, none, none⟩], [],
        fun _ => ⟨0, 0, 0⟩, 8⟩ 7 =
      (⟨[⟨7, OrderStatus.filled, "XYZ", OrderSide.buy, OrderType.market,
        none, TimeInForce.day, 10, 10, some 50, none, none⟩], [],
        fun _ => ⟨0, 0, 0⟩, 8⟩, false) := by
  have h := cancel_order_rule ⟨[⟨7, OrderStatus.filled, "XYZ", OrderSide.buy,
      OrderType.market, none, TimeInForce.day, 10, 10, some 50, none, none⟩], [],
      fun _ => ⟨0, 0, 0⟩, 8⟩ 7 (by intro o ho; simp at ho; rw [ho]; simp)
  exact (h.2.1 _ rfl).1 (Or.inl rfl)

/-- Counterexample to C5 as stated: a `shares` spec with declared size −1.
The claim's formula `floor(declared size value)` gives −1, but
`_compute_qty` clamps with `max(0, ...)` (sim.py line 121) and returns 0. -/
theorem order_sizer_counterexample :
    compute_qty [] ⟨"XYZ", OrderSide.buy, OrderType.market, none, "shares", -1,
        TimeInForce.day, none⟩ ⟨"acct", fun _ => none, 0⟩ = 0 ∧
      ⌊(-1 : Rat)⌋ = -1 ∧ (0 : Int) ≠ ⌊(-1 : Rat)⌋ := by
  refine ⟨?_, by norm_num, by norm_num⟩
  unfold compute_qty
  norm_num
  exact Int.ceil_le.mpr (by norm_num)

/-- C5 amended: the Order Sizer returns `max(0, floor(...))` in each case —
`shares` → `max(0, ⌊size value⌋)`; `notional` → `max(0, ⌊amount / ref⌋)`;
`risk_bps` → `max(0, ⌊equity·(bps/10000) / ref⌋)`; any other kind → 0; the
reference price is the caller-supplied price if positive, else the most
recent fill price, and without a positive reference the result is 0.  (The
source truncates `shares` toward zero before clamping, which agrees with
the floor after the clamp.) -/
theorem order_sizer_amended (fills : List Fill) (spec : OrderSpec)
    (ctx : ExecutionContext) :
    0 ≤ compute_qty fills spec ctx ∧
    (spec.size_type = "shares" →
      compute_qty fills spec ctx = max 0 ⌊spec.size_value⌋) ∧
    (spec.size_type ≠ "shares" →
      (∀ l, resolve_lp fills spec.symbol (ctx.last_prices spec.symbol) = some l →
          0 < l →
        (spec.size_type = "notional" →
          compute_qty fills spec ctx = max 0 ⌊spec.size_value / l⌋) ∧
        (spec.size_type = "risk_bps" →
          compute_qty fills spec ctx =
            max 0 ⌊(ctx.equity * (spec.size_value / 10000)) / l⌋) ∧
        (spec.size_type ≠ "notional" → spec.size_type ≠ "risk_bps" →
          compute_qty fills spec ctx = 0)) ∧
      (resolve_lp fills spec.symbol (ctx.last_prices spec.symbol) = none →
        compute_qty fills spec ctx = 0) ∧
      (∀ l, resolve_lp fills spec.symbol (ctx.last_prices spec.symbol) = some l →
        l ≤ 0 → compute_qty fills spec ctx = 0)) := by
  refine ⟨?_, fun hsh => ?_, fun hnsh =>
    ⟨fun l hl hlpos => ⟨fun hn => ?_, fun hr => ?_, fun hn hr => ?_⟩,
     fun hnone => ?_, fun l hl hle => ?_⟩⟩
  · unfold compute_qty
    by_cases hsh : spec.size_type = "shares"
    · rw [if_pos hsh]
      exact le_max_left 0 _
    · rw [if_neg hsh]
      rcases h : resolve_lp fills spec.symbol (ctx.last_prices spec.symbol)
          with _ | l
      · exact le_refl 0
      · dsimp only
        split_ifs <;> simp [le_max_left]
  · unfold compute_qty
    rw [if_pos hsh]
    by_cases hx : 0 ≤ spec.size_value
    · rw [if_pos hx]
    · rw [if_neg hx]
      have hc : ⌈spec.size_value⌉ ≤ 0 :=
        Int.ceil_le.mpr (by exact_mod_cast (le_of_not_le hx))
      have hf : ⌊spec.size_value⌋ ≤ 0 := le_trans (Int.floor_le_ceil _) hc
      rw [max_eq_left hc, max_eq_left hf]
  · unfold compute_qty
    rw [if_neg hnsh, hl]
    dsimp only
    rw [if_neg (not_le.mpr hlpos), if_pos hn]
  · unfold compute_qty
    rw [if_neg hnsh, hl]
    dsimp only
    rw [if_neg (not_le.mpr hlpos), if_neg (by rw [hr]; decide), if_pos hr]
  · unfold compute_qty
    rw [if_neg hnsh, hl]
    dsimp only
    rw [if_neg (not_le.mpr hlpos), if_neg hn, if_neg hr]
  · unfold compute_qty
    rw [if_neg hnsh, hnone]
  · unfold compute_qty
    rw [if_neg hnsh, hl]
    dsimp only
    rw [if_pos hle]

/-- Witness for C5 amended (spec scenario 4): a notional order of 1000 at
reference price 33.33 sizes to ⌊1000/33.33⌋ = 30. -/
theorem order_sizer_amended_witness :
    compute_qty [] ⟨"XYZ", OrderSide.buy, OrderType.market, none, "notional",
        1000, TimeInForce.day, none⟩
      ⟨"acct", fun _ => some (3333 / 100), 0⟩ = 30 := by
  have h := order_sizer_amended [] ⟨"XYZ", OrderSide.buy, OrderType.market, none,
    "notional", 1000, TimeInForce.day, none⟩ ⟨"acct", fun _ => some (3333 / 100), 0⟩
  have hl : resolve_lp [] "XYZ" (some ((3333 : Rat) / 100)) = some (3333 / 100) := by
    norm_num [resolve_lp]
  have := ((h.2.2 (by decide)).1 (3333 / 100) hl (by norm_num)).1 rfl
  rw [this]
  have hfl : ⌊(1000 : Rat) / (3333 / 100)⌋ = 30 := by
    rw [Int.floor_eq_iff]
    norm_num
  rw [hfl]
  norm_num

/-- C9 fails on the code: the fill path of `_maybe_fill_now` is not one
atomic transaction.  `_insert_fill` ends its own transaction
(`conn.commit()` at sim.py line 98) before the order-row `UPDATE` commits
(line 257) and before `_save_pos` commits the position change (line 165).
The first committed state of the trace already holds the Fill while the
order row is still unfilled and the position row for the symbol is still
the old flat row — exactly the partial application the spec rules out. -/
theorem fill_path_commits_nonatomic :
    ∃ st ∈ fill_commit_trace
        ⟨[⟨3, OrderStatus.pending, "XYZ", OrderSide.buy, OrderType.market, none,
            TimeInForce.day, 10, 0, none, none, none⟩], [], fun _ => ⟨0, 0, 0⟩, 4⟩
        ⟨3, OrderStatus.pending, "XYZ", OrderSide.buy, OrderType.market, none,
          TimeInForce.day, 10, 0, none, none, none⟩ 10 50,
      (∃ f ∈ st.fills, f.order_id = 3 ∧ f.qty = 10 ∧ f.price = 50) ∧
      st.positions "XYZ" = ⟨0, 0, 0⟩ ∧
      ∃ r ∈ st.orders, r.order_id = 3 ∧ r.status ≠ OrderStatus.filled := by
  refine ⟨commit_fill_insert
      ⟨[⟨3, OrderStatus.pending, "XYZ", OrderSide.buy, OrderType.market, none,
          TimeInForce.day, 10, 0, none, none, none⟩], [], fun _ => ⟨0, 0, 0⟩, 4⟩
      ⟨3, OrderStatus.pending, "XYZ", OrderSide.buy, OrderType.market, none,
        TimeInForce.day, 10, 0, none, none, none⟩ 10 50,
    List.mem_cons_self _ _, ⟨_, List.mem_cons_self _ _, rfl, rfl, rfl⟩, rfl,
    ⟨3, OrderStatus.pending, "XYZ", OrderSide.buy, OrderType.market, none,
      TimeInForce.day, 10, 0, none, none, none⟩,
    List.mem_cons_self _ _, rfl, by decide⟩

lemma wf_id_inj (s : BrokerState) (h : WF s) :
    ∀ a ∈ s.orders, ∀ b ∈ s.orders, a.order_id = b.order_id → a = b :=
  fun a ha b hb hab => List.inj_on_of_nodup_map h.2 ha hb hab

/-- A row whose id no element of `L` carries survives the resting-retry
fold untouched. -/
lemma mem_orders_foldl (P : String → Option Rat) (L : List Order)
    (st : BrokerState) (r : Order) (hr : r ∈ st.orders)
    (hid : ∀ a ∈ L, a.order_id ≠ r.order_id) :
    r ∈ (L.foldl (fun st a => (maybe_fill_now st a (P a.symbol)).1) st).orders := by
  induction L generalizing st with
  | nil => exact hr
  | cons a tl ih =>
    simp only [List.foldl_cons]
    refine ih _ ?_ (fun b hb => hid b (List.mem_cons_of_mem a hb))
    rcases maybe_fill_now_cases st a (P a.symbol) with h | ⟨q, p, hd, h⟩
    · rw [h]
      exact hr
    · rw [h, apply_fill_orders]
      exact mem_set_filled_of_ne _ _ _ _ r hr
        (fun hEq => hid a (List.mem_cons_self a tl) hEq.symm)

/-- A row whose id differs from the fresh id survives `place_order`. -/
lemma mem_orders_place (t : BrokerState) (spec2 : OrderSpec)
    (ctx2 : ExecutionContext) (r : Order) (hr : r ∈ t.orders)
    (hid : r.order_id ≠ t.next_id) :
    r ∈ (place_order t spec2 ctx2).1.orders := by
  unfold place_order
  dsimp only
  by_cases hq : compute_qty t.fills spec2 ctx2 < 1
  · rw [if_pos hq]
    exact List.mem_append_left _ hr
  · rw [if_neg hq]
    set row : Order :=
      { order_id := t.next_id, status :=
          if spec2.order_type = OrderType.limit then OrderStatus.«open»
          else OrderStatus.pending,
        symbol := spec2.symbol, side := spec2.side,
        order_type := spec2.order_type, limit_price := spec2.limit_price,
        tif := spec2.tif, requested_qty := compute_qty t.fills spec2 ctx2,
        filled_qty := 0, avg_fill_price := none,
        decision_id := spec2.decision_id, reject_reason := none } with hrow
    set s1 : BrokerState :=
      { t with orders := t.orders ++ [row], next_id := t.next_id + 1 } with hs1
    have hr1 : r ∈ s1.orders := List.mem_append_left _ hr
    rcases maybe_fill_now_cases s1 row (ctx2.last_prices spec2.symbol)
        with h | ⟨q, p, hd, h⟩ <;> rw [h] <;> dsimp only [Option.isNone_none,
          Option.isNone_some, if_true, if_false]
    · simp only [if_true]
      have : (if r.order_id = t.next_id then
          { r with status := OrderStatus.«open» } else r) = r := if_neg hid
      rw [← this]
      exact List.mem_map_of_mem _ hr1
    · simp only [Bool.false_eq_true, if_false]
      rw [apply_fill_orders]
      exact mem_set_filled_of_ne _ _ _ _ r hr1 hid

/-- A non-candidate row (by id) survives `cancel_order` untouched. -/
lemma mem_orders_cancel (t : BrokerState) (oid : Nat) (r : Order)
    (hr : r ∈ t.orders) (hterm : r.status = OrderStatus.filled ∨
      r.status = OrderStatus.canceled ∨ r.status = OrderStatus.rejected)
    (hwf : WF t) :
    r ∈ (cancel_order t oid).1.orders := by
  unfold cancel_order
  rcases hfind : t.orders.find? (fun x => x.order_id == oid) with _ | r0 <;>
    rw [hfind]
  · exact hr
  · dsimp only
    split_ifs with h0
    · exact hr
    · by_cases hid : r.order_id = oid
      · exfalso
        have hr0mem : r0 ∈ t.orders := List.mem_of_find?_eq_some hfind
        have hr0id : r0.order_id = oid := by
          have h2 := List.find?_some hfind
          simpa using h2
        have : r = r0 := wf_id_inj t hwf r hr r0 hr0mem (by rw [hid, hr0id])
        rw [← this] at h0
        exact h0 hterm
      · have : (if r.order_id = oid then
            { r with status := OrderStatus.canceled } else r) = r := if_neg hid
        rw [← this]
        exact List.mem_map_of_mem _ hr

/-- C6: a `place_order` whose sized quantity is below 1 returns a rejected
order with reason `sizing_zero_qty` and zero filled quantity; the store
gains only that one order row — no fill is recorded and no position row
changes; and a rejected row is terminal: no later `cancel_order`,
`try_fill_resting` or `place_order` call touches it. -/
theorem rejected_order_rule (s : BrokerState) (spec : OrderSpec)
    (ctx : ExecutionContext) (hq : compute_qty s.fills spec ctx < 1) :
    (place_order s spec ctx).2.status = OrderStatus.rejected ∧
    (place_order s spec ctx).2.reject_reason = some "sizing_zero_qty" ∧
    (place_order s spec ctx).2.filled_qty = 0 ∧
    (place_order s spec ctx).1.fills = s.fills ∧
    (place_order s spec ctx).1.positions = s.positions ∧
    (place_order s spec ctx).1.orders = s.orders ++ [(place_order s spec ctx).2] ∧
    (∀ (t : BrokerState) (r : Order), WF t → r ∈ t.orders →
      r.status = OrderStatus.rejected →
      (∀ oid, r ∈ (cancel_order t oid).1.orders) ∧
      (∀ P, r ∈ (try_fill_resting t P).orders) ∧
      (∀ spec2 ctx2, r ∈ (place_order t spec2 ctx2).1.orders)) := by
  refine ⟨by unfold place_order; dsimp only; rw [if_pos hq],
    by unfold place_order; dsimp only; rw [if_pos hq],
    by unfold place_order; dsimp only; rw [if_pos hq],
    by unfold place_order; dsimp only; rw [if_pos hq],
    by unfold place_order; dsimp only; rw [if_pos hq],
    by unfold place_order; dsimp only; rw [if_pos hq],
    fun t r hwf hr hrej => ⟨fun oid => ?_,
      fun P => ?_, fun spec2 ctx2 => ?_⟩⟩
  · exact mem_orders_cancel t oid r hr (Or.inr (Or.inr hrej)) hwf
  · unfold try_fill_resting
    refine mem_orders_foldl P _ t r hr (fun a ha => ?_)
    have hmem := List.of_mem_filter ha
    simp only [decide_eq_true_eq] at hmem
    intro hEq
    have : a = r := wf_id_inj t hwf a (List.mem_of_mem_filter ha) r hr hEq
    rw [this, hrej] at hmem
    rcases hmem.1 with h | h <;> simp at h
  · exact mem_orders_place t spec2 ctx2 r hr
      (fun hEq => absurd (hwf.1 r hr) (by rw [hEq]; exact lt_irrefl _))

/-- Witness for C6: a `shares` order with size 0 in an empty store is
rejected with reason `sizing_zero_qty`, leaves fills and positions alone,
and adds exactly one order row. -/
theorem rejected_order_rule_witness :
    (place_order ⟨[], [], fun _ => ⟨0, 0, 0⟩, 0⟩
      ⟨"XYZ", OrderSide.buy, OrderType.market, none, "shares", 0,
        TimeInForce.day, none⟩ ⟨"acct", fun _ => none, 0⟩).2.status =
      OrderStatus.rejected ∧
    (place_order ⟨[], [], fun _ => ⟨0, 0, 0⟩, 0⟩
      ⟨"XYZ", OrderSide.buy, OrderType.market, none, "shares", 0,
        TimeInForce.day, none⟩ ⟨"acct", fun _ => none, 0⟩).1.fills = [] := by
  have h := rejected_order_rule ⟨[], [], fun _ => ⟨0, 0, 0⟩, 0⟩
    ⟨"XYZ", OrderSide.buy, OrderType.market, none, "shares", 0,
      TimeInForce.day, none⟩ ⟨"acct", fun _ => none, 0⟩
    (by unfold compute_qty; norm_num)
  exact ⟨h.1, h.2.2.2.1⟩

lemma fill_decision_market_eff (fills : List Fill) (o : Order)
    (last_price : Option Rat) (htype : o.order_type = OrderType.market) :
    fill_decision fills o last_price =
      some (o.requested_qty, market_effective_price fills o.symbol last_price) :=
  fill_decision_market fills o last_price htype

/-- Looking up the freshly inserted (appended) row after `set_filled`
targeted it: no older row carries the fresh id, so the lookup returns the
filled version of the new row. -/
lemma find?_set_filled_append (l : List Order) (row : Order) (oid : Nat)
    (hl : ∀ x ∈ l, x.order_id ≠ oid) (hrow : row.order_id = oid)
    (q : Int) (p : Rat) :
    (set_filled (l ++ [row]) oid q p).find? (fun r => r.order_id == oid) =
      some { row with status := OrderStatus.filled, filled_qty := q, avg_fill_price := some p } := by
  unfold set_filled
  rw [List.find?_map]
  have hpred : ((fun r : Order => r.order_id == oid) ∘ fun r : Order =>
      if r.order_id = oid then
        { r with status := OrderStatus.filled, filled_qty := q,
                 avg_fill_price := some p }
      else r) = fun r : Order => r.order_id == oid := by
    funext r
    by_cases h : r.order_id = oid <;> simp [h]
  rw [hpred, List.find?_append]
  have h1 : l.find? (fun r => r.order_id == oid) = none :=
    List.find?_eq_none.mpr (fun x hx => by simpa using hl x hx)
  have h2 : [row].find? (fun r => r.order_id == oid) = some row := by
    simp [List.find?, hrow]
  rw [h1, h2]
  simp [hrow]

/-- C4: a market order whose sized quantity is at least 1 resolves at
creation: `place_order` returns it filled in full at the effective price
(caller price if positive, else most recent fill price, else the synthetic
fallback), and market orders are never part of `try_fill_resting`'s
working set. -/
theorem market_order_fills_at_creation (s : BrokerState) (spec : OrderSpec)
    (ctx : ExecutionContext) (hwf : WF s)
    (htype : spec.order_type = OrderType.market)
    (hq : 1 ≤ compute_qty s.fills spec ctx)
    (hpf : ∀ f ∈ s.fills, 0 < f.price) :
    (place_order s spec ctx).2.status = OrderStatus.filled ∧
    (place_order s spec ctx).2.requested_qty = compute_qty s.fills spec ctx ∧
    (place_order s spec ctx).2.filled_qty = compute_qty s.fills spec ctx ∧
    (place_order s spec ctx).2.avg_fill_price =
      some (market_effective_price s.fills spec.symbol
        (ctx.last_prices spec.symbol)) ∧
    (∀ v, ctx.last_prices spec.symbol = some v → 0 < v →
      market_effective_price s.fills spec.symbol (ctx.last_prices spec.symbol)
        = v) ∧
    ((ctx.last_prices spec.symbol = none ∨
        (∃ v, ctx.last_prices spec.symbol = some v ∧ v ≤ 0)) →
      (∀ w, recent_last s.fills spec.symbol = some w →
        market_effective_price s.fills spec.symbol (ctx.last_prices spec.symbol)
          = w) ∧
      (recent_last s.fills spec.symbol = none →
        market_effective_price s.fills spec.symbol (ctx.last_prices spec.symbol)
          = DEFAULT_MARKET_SYNTH_PRICE)) ∧
    (∀ (t : BrokerState) (P : String → Option Rat) (r : Order), WF t →
      r ∈ t.orders → r.order_type = OrderType.market →
      r ∈ (try_fill_resting t P).orders) := by
  have hq' : ¬ compute_qty s.fills spec ctx < 1 := not_lt.mpr hq
  have hret : (place_order s spec ctx).2 =
      { order_id := s.next_id, status := OrderStatus.filled, symbol := spec.symbol, side := spec.side, order_type := spec.order_type, limit_price := spec.limit_price, tif := spec.tif, requested_qty := compute_qty s.fills spec ctx, filled_qty := compute_qty s.fills spec ctx, avg_fill_price := some (market_effective_price s.fills spec.symbol (ctx.last_prices spec.symbol)), decision_id := spec.decision_id, reject_reason := none } := by
    unfold place_order
    dsimp only
    rw [if_neg hq']
    set row : Order :=
      { order_id := s.next_id, status :=
          if spec.order_type = OrderType.limit then OrderStatus.«open»
          else OrderStatus.pending,
        symbol := spec.symbol, side := spec.side,
        order_type := spec.order_type, limit_price := spec.limit_price,
        tif := spec.tif, requested_qty := compute_qty s.fills spec ctx,
        filled_qty := 0, avg_fill_price := none,
        decision_id := spec.decision_id, reject_reason := none } with hrow
    set s1 : BrokerState :=
      { s with orders := s.orders ++ [row], next_id := s.next_id + 1 } with hs1
    have hd : fill_decision s1.fills row (ctx.last_prices spec.symbol) =
        some (row.requested_qty, market_effective_price s.fills spec.symbol
          (ctx.last_prices spec.symbol)) :=
      fill_decision_market_eff s.fills row (ctx.last_prices spec.symbol) htype
    rw [maybe_fill_now_of_some s1 row (ctx.last_prices spec.symbol) _ _ hd]
    simp only [Option.isNone_some, Bool.false_eq_true, if_false]
    rw [apply_fill_orders]
    have hords : s1.orders = s.orders ++ [row] := rfl
    have hid : row.order_id = s.next_id := rfl
    rw [hords, hid]
    rw [find?_set_filled_append s.orders row s.next_id
      (fun x hx => Nat.ne_of_lt (hwf.1 x hx)) rfl]
    rfl
  refine ⟨by rw [hret], by rw [hret], by rw [hret], by rw [hret],
    fun v hv hvpos => ?_, fun hlast => ⟨fun w hw => ?_, fun hw => ?_⟩,
    fun t P r hwf2 hrmem hrmkt => ?_⟩
  · unfold market_effective_price resolve_lp
    rw [hv]
    dsimp only
    rw [if_neg (not_le.mpr hvpos)]
    dsimp only
    rw [if_neg (not_le.mpr hvpos)]
  · have hres : resolve_lp s.fills spec.symbol (ctx.last_prices spec.symbol) =
        recent_last s.fills spec.symbol := by
      unfold resolve_lp
      rcases hlast with h | ⟨v, hv, hvle⟩
      · rw [h]
      · rw [hv]
        dsimp only
        rw [if_pos hvle]
    have hwpos : 0 < w := by
      unfold recent_last at hw
      rcases Option.map_eq_some'.mp hw with ⟨f, hf, hfp⟩
      rw [← hfp]
      exact hpf f (List.mem_of_find?_eq_some hf)
    unfold market_effective_price
    rw [hres, hw]
    dsimp only
    rw [if_neg (not_le.mpr hwpos)]
  · have hres : resolve_lp s.fills spec.symbol (ctx.last_prices spec.symbol) =
        recent_last s.fills spec.symbol := by
      unfold resolve_lp
      rcases hlast with h | ⟨v, hv, hvle⟩
      · rw [h]
      · rw [hv]
        dsimp only
        rw [if_pos hvle]
    unfold market_effective_price
    rw [hres, hw]
  · unfold try_fill_resting
    refine mem_orders_foldl P _ t r hrmem (fun a ha => ?_)
    have hmem := List.of_mem_filter ha
    simp only [decide_eq_true_eq] at hmem
    intro hEq
    have : a = r := wf_id_inj t hwf2 a (List.mem_of_mem_filter ha) r hrmem hEq
    rw [this, hrmkt] at hmem
    exact absurd hmem.2 (by simp)

/-- Witness for C4 (spec scenario 1): market buy of 10 shares of XYZ at
reference price 50 fills at creation at 50 for the full quantity. -/
theorem market_order_fills_at_creation_witness :
    (place_order ⟨[], [], fun _ => ⟨0, 0, 0⟩, 0⟩
      ⟨"XYZ", OrderSide.buy, OrderType.market, none, "shares", 10,
        TimeInForce.day, none⟩
      ⟨"acct", fun _ => some 50, 100000⟩).2.status = OrderStatus.filled ∧
    market_effective_price [] "XYZ" (some 50) = 50 := by
  have h := market_order_fills_at_creation ⟨[], [], fun _ => ⟨0, 0, 0⟩, 0⟩
    ⟨"XYZ", OrderSide.buy, OrderType.market, none, "shares", 10,
      TimeInForce.day, none⟩ ⟨"acct", fun _ => some 50, 100000⟩
    (by constructor <;> simp [WF]) rfl
    (by unfold compute_qty; norm_num) (by simp)
  exact ⟨h.1, h.2.2.2.2.1 50 rfl (by norm_num)⟩

lemma mem_resting_candidates (l : List Order) (r : Order) :
    r ∈ resting_candidates l ↔ r ∈ l ∧ openish r := by
  unfold resting_candidates openish
  rw [List.mem_filter]
  simp

lemma recent_last_cons (f : Fill) (fills : List Fill) (sym : String) :
    recent_last (f :: fills) sym =
      if f.symbol = sym then some f.price else recent_last fills sym := by
  unfold recent_last
  by_cases h : f.symbol = sym
  · rw [if_pos h, List.find?_cons_of_pos _ (by simp [h])]
    rfl
  · rw [if_neg h, List.find?_cons_of_neg _ (by simp [h])]

lemma resolve_lp_congr (f1 f2 : List Fill) (sym : String) (l : Option Rat)
    (h : recent_last f1 sym = recent_last f2 sym) :
    resolve_lp f1 sym l = resolve_lp f2 sym l := by
  unfold resolve_lp
  rcases l with _ | v
  · exact h
  · dsimp only
    split_ifs
    · exact h
    · rfl

/-- Filling a limit order does not move any effective price: the inserted
fill is at the symbol's current effective price, so a later resolution
with the same supplied price (the unchanged price map) gives the same
answer, for every symbol. -/
lemma resolve_lp_preserved (st : BrokerState) (a : Order) (la : Option Rat)
    (q : Int) (p : Rat) (htype : a.order_type = OrderType.limit)
    (hd : fill_decision st.fills a la = some (q, p)) :
    ∀ (sym : String) (l : Option Rat), (sym = a.symbol → l = la) →
      resolve_lp ((apply_fill st a q p).1).fills sym l =
        resolve_lp st.fills sym l := by
  obtain ⟨hres, hppos, -⟩ := limit_fill_at_effective st.fills a la q p htype hd
  intro sym l hla
  rw [apply_fill_fills]
  by_cases hsym : sym = a.symbol
  · subst hsym
    rw [hla rfl]
    have hcons : recent_last (mk_fill st a q p :: st.fills) a.symbol = some p := by
      rw [recent_last_cons,
        if_pos (show (mk_fill st a q p).symbol = a.symbol from rfl)]
      rfl
    unfold resolve_lp at hres ⊢
    rcases la with _ | v
    · dsimp only at hres ⊢
      rw [hcons, hres]
    · dsimp only at hres ⊢
      split_ifs with hv
      · rw [if_pos hv] at hres
        rw [hcons, hres]
      · rfl
  · refine resolve_lp_congr _ _ sym l ?_
    rw [recent_last_cons, if_neg (fun hEq => hsym (by rw [← hEq]; rfl))]

/-- Invariant carried through one `try_fill_resting` pass: every effective
price stays what it was at the start of the pass, and at the end every
still-open/pending limit row has a negative fill decision (at the
start-of-pass fills, hence — by price preservation — also at the
end-of-pass fills). -/
lemma resting_pass_inv (P : String → Option Rat) (s : BrokerState) :
    ∀ (L : List Order) (st : BrokerState),
      (∀ sym, resolve_lp st.fills sym (P sym) = resolve_lp s.fills sym (P sym)) →
      (∀ r ∈ st.orders, openish r →
        r ∈ L ∨ fill_decision s.fills r (P r.symbol) = none) →
      (∀ a ∈ L, a.order_type = OrderType.limit) →
      (∀ sym, resolve_lp
          (L.foldl (fun st a => (maybe_fill_now st a (P a.symbol)).1) st).fills
          sym (P sym) = resolve_lp s.fills sym (P sym)) ∧
      (∀ r ∈ (L.foldl (fun st a => (maybe_fill_now st a (P a.symbol)).1) st).orders,
        openish r → fill_decision s.fills r (P r.symbol) = none) := by
  intro L
  induction L with
  | nil =>
    intro st hEfix horders _
    refine ⟨hEfix, fun r hr hopen => ?_⟩
    rcases horders r hr hopen with h | h
    · exact absurd h (List.not_mem_nil r)
    · exact h
  | cons a tl ih =>
    intro st hEfix horders htypes
    simp only [List.foldl_cons]
    rcases hdec : fill_decision st.fills a (P a.symbol) with _ | ⟨q, p⟩
    · rw [maybe_fill_now_of_none st a (P a.symbol) hdec]
      refine ih st hEfix (fun r hr hopen => ?_)
        (fun b hb => htypes b (List.mem_cons_of_mem a hb))
      rcases horders r hr hopen with h | h
      · rcases List.mem_cons.mp h with rfl | h2
        · exact Or.inr ((fill_decision_congr st.fills s.fills r (P r.symbol)
            (hEfix r.symbol)).symm.trans hdec)
        · exact Or.inl h2
      · exact Or.inr h
    · have htypea : a.order_type = OrderType.limit :=
        htypes a (List.mem_cons_self a tl)
      rw [maybe_fill_now_of_some st a (P a.symbol) q p hdec]
      dsimp only
      refine ih _ (fun sym => ?_) (fun r hr hopen => ?_)
        (fun b hb => htypes b (List.mem_cons_of_mem a hb))
      · rw [resolve_lp_preserved st a (P a.symbol) q p htypea hdec sym (P sym)
          (fun h => by rw [h])]
        exact hEfix sym
      · rw [apply_fill_orders] at hr
        unfold set_filled at hr
        rcases List.mem_map.mp hr with ⟨r0, hr0, hr0eq⟩
        by_cases hideq : r0.order_id = a.order_id
        · rw [if_pos hideq] at hr0eq
          exfalso
          rcases hopen.1 with h | h <;> rw [← hr0eq] at h <;> simp at h
        · rw [if_neg hideq] at hr0eq
          subst hr0eq
          rcases horders r0 hr0 hopen with h | h
          · rcases List.mem_cons.mp h with rfl | h2
            · exact absurd rfl hideq
            · exact Or.inl h2
          · exact Or.inr h

/-- A pass in which every candidate's decision is negative leaves the
store exactly as it was. -/
lemma resting_pass_id (P : String → Option Rat) (L : List Order)
    (st : BrokerState)
    (h : ∀ a ∈ L, fill_decision st.fills a (P a.symbol) = none) :
    L.foldl (fun st a => (maybe_fill_now st a (P a.symbol)).1) st = st := by
  induction L with
  | nil => rfl
  | cons a tl ih =>
    simp only [List.foldl_cons]
    rw [maybe_fill_now_of_none st a (P a.symbol) (h a (List.mem_cons_self a tl))]
    exact ih (fun b hb => h b (List.mem_cons_of_mem a hb))

/-- C7: `try_fill_resting` is idempotent — running it twice with the same
price map equals running it once; its working set holds only open/pending
limit orders; and every other order row (in particular a filled one)
survives a pass untouched. -/
theorem try_fill_resting_idempotent (s : BrokerState) (P : String → Option Rat)
    (hwf : WF s) :
    try_fill_resting (try_fill_resting s P) P = try_fill_resting s P ∧
    (∀ r ∈ resting_candidates s.orders, openish r) ∧
    (∀ r ∈ s.orders, ¬ openish r → r ∈ (try_fill_resting s P).orders) := by
  have hinv := resting_pass_inv P s (resting_candidates s.orders) s
    (fun _ => rfl)
    (fun r hr hopen => Or.inl ((mem_resting_candidates s.orders r).mpr ⟨hr, hopen⟩))
    (fun a ha => ((mem_resting_candidates s.orders a).mp ha).2.2)
  refine ⟨?_, fun r hr => ((mem_resting_candidates s.orders r).mp hr).2,
    fun r hr hnopen => ?_⟩
  · unfold try_fill_resting
    refine resting_pass_id P _ _ (fun a ha => ?_)
    have hmem := (mem_resting_candidates _ a).mp ha
    have hnone := hinv.2 a hmem.1 hmem.2
    exact (fill_decision_congr _ _ a (P a.symbol) (hinv.1 a.symbol)).trans hnone
  · unfold try_fill_resting
    refine mem_orders_foldl P _ s r hr (fun a ha => ?_)
    have hmem := (mem_resting_candidates _ a).mp ha
    intro hEq
    exact hnopen (by rw [wf_id_inj s hwf r hr a hmem.1 hEq.symm]; exact hmem.2)

/-- Witness for C7: one resting limit buy at 49 against a price map at 50
does not cross; a second identical pass leaves the store equal to the
first pass's result. -/
theorem try_fill_resting_idempotent_witness :
    try_fill_resting (try_fill_resting
        ⟨[⟨0, OrderStatus.«open», "XYZ", OrderSide.buy, OrderType.limit, some 49,
           TimeInForce.day, 5, 0, none, none, none⟩], [], fun _ => ⟨0, 0, 0⟩, 1⟩
        (fun _ => some 50)) (fun _ => some 50) =
      try_fill_resting
        ⟨[⟨0, OrderStatus.«open», "XYZ", OrderSide.buy, OrderType.limit, some 49,
           TimeInForce.day, 5, 0, none, none, none⟩], [], fun _ => ⟨0, 0, 0⟩, 1⟩
        (fun _ => some 50) :=
  (try_fill_resting_idempotent
    ⟨[⟨0, OrderStatus.«open», "XYZ", OrderSide.buy, OrderType.limit, some 49,
       TimeInForce.day, 5, 0, none, none, none⟩], [], fun _ => ⟨0, 0, 0⟩, 1⟩
    (fun _ => some 50) ⟨by simp, by simp⟩).1

end Sim
